import Mathlib

/-!
Verification of the Mealie recipe sync engine
(stacks/apps/mealie-sync): a shallow embedding of the discovery and
synchronization pipeline (app/main.py, app/sources.py, app/mealie_client.py)
together with a model of the persistent state store and the URL normalizer,
whose modules (state.py, crawler.py) are not among the provided sources and
are therefore modelled from the specification.
-/

namespace MealieSync

/-! ## URL normalizer model

The URLNormalizer lives in crawler.py, which is not among the provided
source files; the definitions below are modelled from the specification:
normalization strips a fixed denylist of tracking query parameters
(utm_*, fbclid, gclid, ref), drops the fragment, lowercases the host and
leaves the remaining query parameters and their relative order untouched. -/

/-- Lowercases one character: basic latin upper-case letters are shifted to
lower case, every other character is left alone.  Modelled from the spec:
the normalizer lowercases the URL host. -/
def lowerChar (c : Char) : Char :=
  if 65 ≤ c.toNat ∧ c.toNat ≤ 90 then Char.ofNat (c.toNat + 32) else c

/-- Lowercases every character of a string. -/
def lowerString (s : String) : String :=
  String.mk (s.data.map lowerChar)

/-- A URL in parsed form: scheme, host, path, query parameters in order,
and an optional fragment.  Modelled from the spec: the normalizer preserves
the scheme/host/path/remaining-query order. -/
structure ParsedUrl where
  scheme : String
  host : String
  path : String
  query : List (String × String)
  fragment : Option String
deriving DecidableEq

/-- Is a query key on the tracking-parameter denylist (utm_*, fbclid,
gclid, ref)?  Modelled from the spec's fixed denylist, matching the
repository's own tests in tests/test_url_normalization.py. -/
def isTrackingParam (k : String) : Bool :=
  k.startsWith "utm_" || k == "fbclid" || k == "gclid" || k == "ref"

/-- Modelled from the spec: URLNormalizer.normalize removes the tracking
parameters, drops the fragment, lowercases the host and keeps everything
else (crawler.py is not among the provided source files). -/
def normalize (u : ParsedUrl) : ParsedUrl :=
  { u with
    host := lowerString u.host
    query := u.query.filter (fun kv => !isTrackingParam kv.1)
    fragment := none }

theorem toNat_ofNat_valid (n : Nat) (h : n.isValidChar) :
    (Char.ofNat n).toNat = n := by
  simp only [Char.ofNat, dif_pos h]
  rfl

theorem lowerChar_idem (c : Char) : lowerChar (lowerChar c) = lowerChar c := by
  unfold lowerChar
  split
  · rename_i h
    have h2 : (Char.ofNat (c.toNat + 32)).toNat = c.toNat + 32 :=
      toNat_ofNat_valid _ (Or.inl (by omega))
    rw [if_neg]
    omega
  · rfl

theorem lowerString_idem (s : String) :
    lowerString (lowerString s) = lowerString s := by
  simp only [lowerString, List.map_map]
  congr 1
  apply List.map_congr_left
  intro c _
  exact lowerChar_idem c

/-! ## Import client transport configuration

From mealie_client.py, MealieClient.__init__: the retry strategy mounted on
the HTTP session. -/

/-- The fields of the retry strategy object constructed by the client. -/
structure RetryPolicy where
  total : Nat
  backoffFactor : Nat
  statusForcelist : List Nat
  allowedMethods : List String
deriving DecidableEq

/-- The retry strategy exactly as MealieClient.__init__ constructs it
(mealie_client.py lines 44-49). -/
def mealieRetryPolicy : RetryPolicy :=
  { total := 3
    backoffFactor := 2
    statusForcelist := [429, 500, 502, 503, 504]
    allowedMethods := ["GET", "POST"] }

/-- Is an HTTP method idempotent (hence safe to retry)?  Per HTTP semantics
(RFC 7231): GET, HEAD, OPTIONS, TRACE, PUT and DELETE are idempotent; POST
is not. -/
def idempotentSafeMethod (m : String) : Bool :=
  m == "GET" || m == "HEAD" || m == "OPTIONS" || m == "TRACE" ||
    m == "PUT" || m == "DELETE"

/-! ## Import client call outcomes

From mealie_client.py, MealieClient.import_recipe_from_url: the response of
the downstream create-from-url endpoint is abstracted into the outcomes the
code distinguishes. -/

/-- One HTTP outcome of the import POST, as the client's except-branches
distinguish them. -/
inductive HttpOutcome where
  | success (recipeName : String)
  | httpError (status : Nat)
  | timeout
  | connectionError
  | otherError
deriving DecidableEq

/-- The recipe dictionary the client hands back to the orchestrator. -/
structure Recipe where
  name : String
  url : String
  isDryRun : Bool
  alreadyExists : Bool
deriving DecidableEq

/-- MealieClient.import_recipe_from_url (mealie_client.py lines 79-129):
returns the recipe record (or none on failure) together with whether a
network call was made.  In dry-run mode no call is made and a synthetic
record is returned; a 409 conflict is answered with a minimal success
record; every other error maps to none. -/
def importRecipeFromUrl (dryRun : Bool) (url : String) (resp : HttpOutcome) :
    Option Recipe × Bool :=
  if dryRun then
    (some { name := "Dry Run Recipe", url := url, isDryRun := true, alreadyExists := false }, false)
  else
    match resp with
    | .success n => (some { name := n, url := url, isDryRun := false, alreadyExists := false }, true)
    | .timeout => (none, true)
    | .httpError status =>
        if status = 409 then
          (some { name := "Existing Recipe", url := url, isDryRun := false, alreadyExists := true }, true)
        else (none, true)
    | .connectionError => (none, true)
    | .otherError => (none, true)

/-! ## Source strategies

From sources.py: the five source variants.  The collaborators a source
talks to — the feed parser, the crawler, and the URLNormalizer helpers
matches_domain and normalize (crawler.py is not among the provided
sources) — are passed in as an environment.  Calls that can raise in
Python (feedparser.parse, crawler.crawl_index_page) return Except, and
each variant's function also returns Except so that the try/except
structure of the code is translated faithfully: a function body placed
inside a try block catches the error, anything outside would propagate
it. -/

/-- A parsed feed, as the code consumes it: the malformed-content flag
(bozo) and the entries' link fields (an empty string stands for an entry
whose link is missing). -/
structure Feed where
  bozo : Bool
  entries : List String
deriving DecidableEq

/-- The collaborators of a source: the feed parser, the index crawler and
the URLNormalizer operations, each an oracle. -/
structure SourceEnv where
  parseFeed : String → Except String Feed
  crawlIndexPage : String → List String → Nat → Except String (List String)
  matchesDomain : String → List String → Bool
  normalize : String → String

/-- The per-entry loop shared by the feed-reading variants (sources.py
lines 65-73, 106-114, 169-177): skip entries without a link, apply the
domain allow-list when one is configured, normalize and collect. -/
def extractFeedUrls (env : SourceEnv) (allowDomains : List String)
    (maxEntries : Nat) (feed : Feed) : List String :=
  (feed.entries.take maxEntries).foldl
    (fun urls url =>
      if url = "" then urls
      else if !allowDomains.isEmpty && !env.matchesDomain url allowDomains then urls
      else urls ++ [env.normalize url]) []

/-- Configuration of the plain RSS variant. -/
structure RSSFeedConfig where
  rssUrl : Option String
  maxEntries : Nat
  allowDomains : List String

/-- RSSFeedSource.get_recipe_urls (sources.py lines 49-80): a missing
rss_url yields [], a parse error is caught and yields [], otherwise the
feed's entries are extracted. -/
def rssFeedGetUrls (env : SourceEnv) (cfg : RSSFeedConfig) :
    Except String (List String) :=
  match cfg.rssUrl with
  | none => .ok []
  | some rssUrl =>
      match env.parseFeed rssUrl with
      | .ok feed => .ok (extractFeedUrls env cfg.allowDomains cfg.maxEntries feed)
      | .error _ => .ok []

/-- Configuration of the RSS-with-suffix variant. -/
structure RSSSuffixConfig where
  indexUrl : Option String
  rssSuffix : String
  maxEntries : Nat
  allowDomains : List String

/-- Strips trailing slash characters, as index_url.rstrip of a slash does
in sources.py line 97. -/
def rstripSlash (s : String) : String :=
  String.mk ((s.data.reverse.dropWhile (fun c => c == '/')).reverse)

/-- RSSSuffixSource.get_recipe_urls (sources.py lines 86-121). -/
def rssSuffixGetUrls (env : SourceEnv) (cfg : RSSSuffixConfig) :
    Except String (List String) :=
  match cfg.indexUrl with
  | none => .ok []
  | some indexUrl =>
      match env.parseFeed (rstripSlash indexUrl ++ cfg.rssSuffix) with
      | .ok feed => .ok (extractFeedUrls env cfg.allowDomains cfg.maxEntries feed)
      | .error _ => .ok []

/-- Configuration of the crawl-index variant. -/
structure CrawlIndexConfig where
  indexUrl : Option String
  maxPages : Nat
  allowDomains : List String

/-- CrawlIndexSource.get_recipe_urls (sources.py lines 127-148): requires
index_url and a nonempty allow-list, catches crawl errors. -/
def crawlIndexGetUrls (env : SourceEnv) (cfg : CrawlIndexConfig) :
    Except String (List String) :=
  match cfg.indexUrl with
  | none => .ok []
  | some indexUrl =>
      if cfg.allowDomains.isEmpty then .ok []
      else
        match env.crawlIndexPage indexUrl cfg.allowDomains cfg.maxPages with
        | .ok urls => .ok urls
        | .error _ => .ok []

/-- Configuration of the RSS-or-crawl fallback variant. -/
structure RSSOrCrawlConfig where
  rssCandidates : List String
  crawlFallback : Option String
  maxEntries : Nat
  maxPages : Nat
  allowDomains : List String

/-- The candidate loop of RSSOrCrawlSource.get_recipe_urls (sources.py
lines 162-185): a parse error is caught and the next candidate tried; a
candidate is returned (with its extracted URLs) only when the feed is not
bozo, has entries, and the extracted URL list is nonempty. -/
def tryRssCandidates (env : SourceEnv) (allowDomains : List String)
    (maxEntries : Nat) : List String → Option (String × List String)
  | [] => none
  | c :: rest =>
      match env.parseFeed c with
      | .error _ => tryRssCandidates env allowDomains maxEntries rest
      | .ok feed =>
          if !feed.bozo && !feed.entries.isEmpty then
            let urls := extractFeedUrls env allowDomains maxEntries feed
            if !urls.isEmpty then some (c, urls)
            else tryRssCandidates env allowDomains maxEntries rest
          else tryRssCandidates env allowDomains maxEntries rest

/-- RSSOrCrawlSource.get_recipe_urls (sources.py lines 154-204): try the
candidates, otherwise crawl the fallback (which itself requires an
allow-list and catches crawl errors). -/
def rssOrCrawlGetUrls (env : SourceEnv) (cfg : RSSOrCrawlConfig) :
    Except String (List String) :=
  match tryRssCandidates env cfg.allowDomains cfg.maxEntries cfg.rssCandidates with
  | some r => .ok r.2
  | none =>
      match cfg.crawlFallback with
      | some fb =>
          if cfg.allowDomains.isEmpty then .ok []
          else
            match env.crawlIndexPage fb cfg.allowDomains cfg.maxPages with
            | .ok urls => .ok urls
            | .error _ => .ok []
      | none => .ok []

/-- Configuration of the static URL-list variant. -/
structure URLListConfig where
  urls : List String
  allowDomains : List String

/-- URLListSource.get_recipe_urls (sources.py lines 210-224): filter the
configured list through the allow-list and normalize. -/
def urlListGetUrls (env : SourceEnv) (cfg : URLListConfig) :
    Except String (List String) :=
  .ok (cfg.urls.foldl
    (fun acc url =>
      if !cfg.allowDomains.isEmpty && !env.matchesDomain url cfg.allowDomains then acc
      else acc ++ [env.normalize url]) [])

/-- The candidate-acceptance rule exactly as the specification words it
for the feed-or-crawl variant: the first candidate that parses without the
malformed-content flag and yields entries.  Stated from the spec's words
in order to compare it against the code's rule. -/
def firstWellFormedCandidate (env : SourceEnv) : List String → Option String
  | [] => none
  | c :: rest =>
      match env.parseFeed c with
      | .error _ => firstWellFormedCandidate env rest
      | .ok feed =>
          if !feed.bozo && !feed.entries.isEmpty then some c
          else firstWellFormedCandidate env rest

/-- The amended candidate-acceptance rule: the first candidate that parses
without the malformed-content flag, yields entries, and yields at least
one URL after link extraction and domain filtering. -/
def firstUsableCandidate (env : SourceEnv) (allowDomains : List String)
    (maxEntries : Nat) : List String → Option String
  | [] => none
  | c :: rest =>
      match env.parseFeed c with
      | .error _ => firstUsableCandidate env allowDomains maxEntries rest
      | .ok feed =>
          if !feed.bozo && !feed.entries.isEmpty &&
              !(extractFeedUrls env allowDomains maxEntries feed).isEmpty then some c
          else firstUsableCandidate env allowDomains maxEntries rest

/-- The feed-or-crawl variant as the amended specification describes it:
the accepted candidate is the first usable one and its extracted URLs are
returned; only when no candidate is usable is the fallback index crawled. -/
def rssOrCrawlSpec (env : SourceEnv) (cfg : RSSOrCrawlConfig) :
    Except String (List String) :=
  match firstUsableCandidate env cfg.allowDomains cfg.maxEntries cfg.rssCandidates with
  | some c =>
      match env.parseFeed c with
      | .ok feed => .ok (extractFeedUrls env cfg.allowDomains cfg.maxEntries feed)
      | .error _ => .ok []
  | none =>
      match cfg.crawlFallback with
      | some fb =>
          if cfg.allowDomains.isEmpty then .ok []
          else
            match env.crawlIndexPage fb cfg.allowDomains cfg.maxPages with
            | .ok urls => .ok urls
            | .error _ => .ok []
      | none => .ok []

/-! ## State store model

StateManager lives in state.py, which is not among the provided source
files; the record types and operations below are modelled from the
specification (section 3 and 4.5): seen records are upserted, import and
attempt records are appended, a sync run is opened with a fresh id and
finalized by appending a completed-run record. -/

/-- An ImportRecord: written only on successful import. -/
structure ImportRecord where
  url : String
  displayName : String
  sourceName : Option String
deriving DecidableEq

/-- An AttemptRecord: the append-only log of every import attempt. -/
structure AttemptRecord where
  url : String
  success : Bool
  errorMessage : Option String
deriving DecidableEq

/-- A finalized SyncRun row with its aggregate counts. -/
structure SyncRunRecord where
  runId : Nat
  discovered : Nat
  imported : Nat
  failed : Nat
  failureReason : Option String
deriving DecidableEq

/-- The persistent state: seen (URL, domain) pairs, import records,
attempt records, finalized runs, and the next run id.  Modelled from the
spec: the State Store exclusively owns these tables. -/
structure StoreState where
  seen : List (String × String)
  imports : List ImportRecord
  attempts : List AttemptRecord
  completedRuns : List SyncRunRecord
  nextRunId : Nat
deriving DecidableEq

/-- A store with nothing recorded yet. -/
def emptyStore : StoreState :=
  { seen := [], imports := [], attempts := [], completedRuns := [], nextRunId := 1 }

/-- Modelled from the spec: mark_url_seen upserts a SeenRecord keyed on the
URL and does not affect import gating. -/
def markUrlSeen (s : StoreState) (url domain : String) : StoreState :=
  if s.seen.any (fun p => p.1 == url) then s
  else { s with seen := s.seen ++ [(url, domain)] }

/-- Modelled from the spec: get_imported_urls returns every URL having an
ImportRecord, the idempotency filter. -/
def getImportedUrls (s : StoreState) : List String :=
  s.imports.map (fun r => r.url)

/-- Modelled from the spec: record_import inserts an ImportRecord. -/
def recordImport (s : StoreState) (url displayName : String)
    (sourceName : Option String) : StoreState :=
  { s with imports := s.imports ++ [{ url := url, displayName := displayName, sourceName := sourceName }] }

/-- Modelled from the spec: record_attempt appends an AttemptRecord, purely
observational. -/
def recordAttempt (s : StoreState) (url : String) (success : Bool)
    (errorMessage : Option String) : StoreState :=
  { s with attempts := s.attempts ++ [{ url := url, success := success, errorMessage := errorMessage }] }

/-- Modelled from the spec: start_sync_run opens a SyncRun and returns its
fresh id. -/
def startSyncRun (s : StoreState) : Nat × StoreState :=
  (s.nextRunId, { s with nextRunId := s.nextRunId + 1 })

/-- Modelled from the spec: complete_sync_run finalizes exactly the given
run by recording its aggregate counts. -/
def completeSyncRun (s : StoreState) (runId discovered imported failed : Nat)
    (failureReason : Option String) : StoreState :=
  { s with completedRuns := s.completedRuns ++
      [{ runId := runId, discovered := discovered, imported := imported,
         failed := failed, failureReason := failureReason }] }

/-! ## Sync orchestrator

From main.py, RecipeSyncManager.  Each configured source is abstracted
into its observable outcome for the run: disabled (or filtered out by the
factory as an unknown type), a raised exception (caught per source), or
the URL list its get_recipe_urls returned.  The import POST's response per
URL is an oracle. -/

/-- What one configured source contributes to a run. -/
inductive SourceOutcome where
  | disabled
  | unknownType
  | ok (urls : List String)
  | raises (msg : String)
deriving DecidableEq

/-- The URL list of a source outcome, if the source ran and returned. -/
def sourceUrls : SourceOutcome → Option (List String)
  | .ok urls => some urls
  | _ => none

/-- RecipeSyncManager.discover_urls (main.py lines 104-140): walk the
sources in configuration order; a disabled or unknown source is skipped; a
raising source contributes nothing; a returning source has each URL marked
seen (with its extracted domain) and its URLs appended to the combined
list. -/
def discoverUrls (dom : String → String) :
    List SourceOutcome → StoreState × List String → StoreState × List String
  | [], acc => acc
  | src :: rest, acc =>
      match src with
      | .ok urls =>
          discoverUrls dom rest
            (urls.foldl (fun t u => markUrlSeen t u (dom u)) acc.1, acc.2 ++ urls)
      | _ => discoverUrls dom rest acc

/-- Order-preserving deduplication, as list(dict.fromkeys(...)) in main.py
line 164: the first occurrence of each URL is kept. -/
def dedupKeepFirst (l : List String) : List String :=
  l.foldl (fun acc u => if u ∈ acc then acc else acc ++ [u]) []

/-- The per-URL import loop of RecipeSyncManager.sync (main.py lines
193-220), threading the store, the imported and failed counters and the
list of URLs for which a network import call was made. -/
def importLoop (resp : String → HttpOutcome) (dryRun : Bool) :
    List String → StoreState × Nat × Nat × List String →
      StoreState × Nat × Nat × List String
  | [], acc => acc
  | url :: rest, acc =>
      let r := importRecipeFromUrl dryRun url (resp url)
      let calls := if r.2 then acc.2.2.2 ++ [url] else acc.2.2.2
      match r.1 with
      | some recipe =>
          importLoop resp dryRun rest
            (recordAttempt (recordImport acc.1 url recipe.name none) url true none,
             acc.2.1 + 1, acc.2.2.1, calls)
      | none =>
          importLoop resp dryRun rest
            (recordAttempt acc.1 url false (some "Import failed"),
             acc.2.1, acc.2.2.1 + 1, calls)

/-- The run parameters of the orchestrator. -/
structure SyncConfig where
  maxPerRun : Nat
  dryRun : Bool

/-- The observable environment of one sync cycle: the connectivity check's
result, each source's outcome in configuration order, and the import
POST's response per URL. -/
structure SyncOracle where
  connOk : Bool
  sources : List SourceOutcome
  resp : String → HttpOutcome

/-- What one sync cycle produces: the final store, the URLs for which a
network import call was made, and the id of the run it opened. -/
structure SyncResult where
  state : StoreState
  networkCalls : List String
  runId : Nat

/-- RecipeSyncManager.sync (main.py lines 142-240): open a run; abort with
a recorded reason when the connectivity check fails; discover, dedupe,
filter out already-imported URLs, truncate to the per-run cap; in dry-run
finalize without importing; otherwise run the import loop and finalize
with the aggregate counts. -/
def sync (cfg : SyncConfig) (dom : String → String) (o : SyncOracle)
    (s0 : StoreState) : SyncResult :=
  let runId := (startSyncRun s0).1
  let s1 := (startSyncRun s0).2
  if o.connOk = false then
    { state := completeSyncRun s1 runId 0 0 0 (some "Failed to connect to Mealie")
      networkCalls := []
      runId := runId }
  else
    let d := discoverUrls dom o.sources (s1, [])
    let uniqueUrls := dedupKeepFirst d.2
    let importedUrls := getImportedUrls d.1
    let newUrls := uniqueUrls.filter (fun u => decide (u ∉ importedUrls))
    if newUrls.isEmpty then
      { state := completeSyncRun d.1 runId d.2.length 0 0 none
        networkCalls := []
        runId := runId }
    else
      let urlsToImport := newUrls.take cfg.maxPerRun
      if cfg.dryRun then
        { state := completeSyncRun d.1 runId d.2.length 0 0 none
          networkCalls := []
          runId := runId }
      else
        let r := importLoop o.resp cfg.dryRun urlsToImport (d.1, 0, 0, [])
        { state := completeSyncRun r.1 runId d.2.length r.2.1 r.2.2.1 none
          networkCalls := r.2.2.2
          runId := runId }

/-- A sequence of sync cycles, each run on the store the previous one
left. -/
def runMany (cfg : SyncConfig) (dom : String → String) :
    List SyncOracle → StoreState → StoreState
  | [], s => s
  | o :: os, s => runMany cfg dom os (sync cfg dom o s).state

/-- The combined discovery list of a run: the enabled, returning sources'
URL lists concatenated in configuration order, before deduplication. -/
def discoveredOf (o : SyncOracle) : List String :=
  (o.sources.filterMap sourceUrls).flatten

/-- The candidate list of a run over store s: the deduplicated discovery
list minus the URLs having an ImportRecord. -/
def syncCandidates (o : SyncOracle) (s : StoreState) : List String :=
  (dedupKeepFirst (discoveredOf o)).filter (fun u => decide (u ∉ getImportedUrls s))

/-! ## Lemmas about order-preserving deduplication -/

/-- The folding step of dedupKeepFirst. -/
def dedupStep (acc : List String) (u : String) : List String :=
  if u ∈ acc then acc else acc ++ [u]

theorem dedupKeepFirst_eq_foldl (l : List String) :
    dedupKeepFirst l = l.foldl dedupStep [] := rfl

theorem mem_foldl_dedupStep (l : List String) (acc : List String) (a : String) :
    a ∈ l.foldl dedupStep acc ↔ a ∈ acc ∨ a ∈ l := by
  induction l generalizing acc with
  | nil => simp
  | cons u l ih =>
      by_cases hu : u ∈ acc
      · simp only [List.foldl_cons, dedupStep, if_pos hu, ih, List.mem_cons]
        constructor
        · rintro (h | h)
          · exact Or.inl h
          · exact Or.inr (Or.inr h)
        · rintro (h | rfl | h)
          · exact Or.inl h
          · exact Or.inl hu
          · exact Or.inr h
      · simp only [List.foldl_cons, dedupStep, if_neg hu, ih, List.mem_append,
          List.mem_singleton, List.mem_cons]
        tauto

theorem nodup_foldl_dedupStep (l : List String) (acc : List String)
    (h : acc.Nodup) : (l.foldl dedupStep acc).Nodup := by
  induction l generalizing acc with
  | nil => exact h
  | cons u l ih =>
      by_cases hu : u ∈ acc
      · simpa only [List.foldl_cons, dedupStep, if_pos hu] using ih acc h
      · refine ?_
        simp only [List.foldl_cons, dedupStep, if_neg hu]
        exact ih _ (by simp [List.nodup_append, h, hu])

theorem sublist_foldl_dedupStep (l : List String) (acc : List String) :
    ∃ t, l.foldl dedupStep acc = acc ++ t ∧ t.Sublist l := by
  induction l generalizing acc with
  | nil => exact ⟨[], by simp⟩
  | cons u l ih =>
      by_cases hu : u ∈ acc
      · obtain ⟨t, ht, hs⟩ := ih acc
        exact ⟨t, by simpa only [List.foldl_cons, dedupStep, if_pos hu] using ht,
          hs.cons u⟩
      · obtain ⟨t, ht, hs⟩ := ih (acc ++ [u])
        refine ⟨u :: t, ?_, hs.cons₂ u⟩
        simpa only [List.foldl_cons, dedupStep, if_neg hu, List.append_assoc,
          List.singleton_append] using ht

theorem foldl_dedupStep_filter_absorbed (l : List String) (acc : List String)
    (x : String) (hx : x ∈ acc) :
    l.foldl dedupStep acc = (l.filter (fun b => !(b == x))).foldl dedupStep acc := by
  induction l generalizing acc with
  | nil => rfl
  | cons u l ih =>
      by_cases hux : u = x
      · subst hux
        simp only [List.filter_cons, beq_self_eq_true, Bool.not_true,
          List.foldl_cons, dedupStep, if_pos hx]
        exact ih acc hx
      · have hne : (!(u == x)) = true := by simp [hux]
        simp only [List.filter_cons, hne, if_pos, List.foldl_cons]
        by_cases hu : u ∈ acc
        · simp only [dedupStep, if_pos hu]
          exact ih acc hx
        · simp only [dedupStep, if_neg hu]
          exact ih (acc ++ [u]) (List.mem_append_left _ hx)

theorem foldl_dedupStep_cons_out (m : List String) (acc : List String)
    (a : String) (ha : a ∉ m) :
    m.foldl dedupStep (a :: acc) = a :: m.foldl dedupStep acc := by
  induction m generalizing acc with
  | nil => rfl
  | cons u m ih =>
      have hua : u ≠ a := fun h => ha (h ▸ List.mem_cons_self u m)
      have ham : a ∉ m := fun h => ha (List.mem_cons_of_mem u h)
      by_cases hu : u ∈ acc
      · have h1 : u ∈ a :: acc := List.mem_cons_of_mem a hu
        simp only [List.foldl_cons, dedupStep, if_pos hu, if_pos h1]
        exact ih acc ham
      · have h1 : u ∉ a :: acc := by
          simp only [List.mem_cons]
          rintro (h | h)
          · exact hua h
          · exact hu h
        simp only [List.foldl_cons, dedupStep, if_neg hu, if_neg h1]
        have : a :: acc ++ [u] = a :: (acc ++ [u]) := by simp
        rw [this]
        exact ih (acc ++ [u]) ham

theorem mem_dedupKeepFirst (l : List String) (a : String) :
    a ∈ dedupKeepFirst l ↔ a ∈ l := by
  rw [dedupKeepFirst_eq_foldl, mem_foldl_dedupStep]
  simp

theorem nodup_dedupKeepFirst (l : List String) : (dedupKeepFirst l).Nodup :=
  nodup_foldl_dedupStep l [] List.nodup_nil

theorem sublist_dedupKeepFirst (l : List String) :
    (dedupKeepFirst l).Sublist l := by
  obtain ⟨t, ht, hs⟩ := sublist_foldl_dedupStep l []
  rw [dedupKeepFirst_eq_foldl, ht]
  simpa using hs

theorem dedupKeepFirst_cons (a : String) (l : List String) :
    dedupKeepFirst (a :: l) = a :: dedupKeepFirst (l.filter (fun b => !(b == a))) := by
  have h0 : a ∉ ([] : List String) := List.not_mem_nil a
  have hfa : a ∉ l.filter (fun b => !(b == a)) := by
    intro h
    have := List.of_mem_filter h
    simp at this
  calc dedupKeepFirst (a :: l)
      = l.foldl dedupStep (dedupStep [] a) := rfl
    _ = l.foldl dedupStep [a] := by rw [dedupStep, if_neg h0]; rfl
    _ = (l.filter (fun b => !(b == a))).foldl dedupStep [a] :=
        foldl_dedupStep_filter_absorbed l [a] a (List.mem_singleton_self a)
    _ = a :: (l.filter (fun b => !(b == a))).foldl dedupStep [] :=
        foldl_dedupStep_cons_out _ [] a hfa
    _ = a :: dedupKeepFirst (l.filter (fun b => !(b == a))) := rfl

/-! ## Lemmas about discovery -/

theorem markUrlSeen_imports (s : StoreState) (u d : String) :
    (markUrlSeen s u d).imports = s.imports := by
  unfold markUrlSeen
  split <;> rfl

theorem markUrlSeen_attempts (s : StoreState) (u d : String) :
    (markUrlSeen s u d).attempts = s.attempts := by
  unfold markUrlSeen
  split <;> rfl

theorem markUrlSeen_completedRuns (s : StoreState) (u d : String) :
    (markUrlSeen s u d).completedRuns = s.completedRuns := by
  unfold markUrlSeen
  split <;> rfl

theorem foldl_markUrlSeen_imports (dom : String → String) (urls : List String)
    (s : StoreState) :
    (urls.foldl (fun t u => markUrlSeen t u (dom u)) s).imports = s.imports := by
  induction urls generalizing s with
  | nil => rfl
  | cons u urls ih => rw [List.foldl_cons, ih, markUrlSeen_imports]

theorem foldl_markUrlSeen_attempts (dom : String → String) (urls : List String)
    (s : StoreState) :
    (urls.foldl (fun t u => markUrlSeen t u (dom u)) s).attempts = s.attempts := by
  induction urls generalizing s with
  | nil => rfl
  | cons u urls ih => rw [List.foldl_cons, ih, markUrlSeen_attempts]

theorem foldl_markUrlSeen_completedRuns (dom : String → String)
    (urls : List String) (s : StoreState) :
    (urls.foldl (fun t u => markUrlSeen t u (dom u)) s).completedRuns
      = s.completedRuns := by
  induction urls generalizing s with
  | nil => rfl
  | cons u urls ih => rw [List.foldl_cons, ih, markUrlSeen_completedRuns]

theorem discoverUrls_snd (dom : String → String) (srcs : List SourceOutcome)
    (s : StoreState) (acc : List String) :
    (discoverUrls dom srcs (s, acc)).2 = acc ++ (srcs.filterMap sourceUrls).flatten := by
  induction srcs generalizing s acc with
  | nil => simp [discoverUrls]
  | cons src rest ih =>
      cases src with
      | ok urls => simp [discoverUrls, sourceUrls, ih]
      | disabled => simpa [discoverUrls, sourceUrls] using ih s acc
      | unknownType => simpa [discoverUrls, sourceUrls] using ih s acc
      | raises m => simpa [discoverUrls, sourceUrls] using ih s acc

theorem discoverUrls_imports (dom : String → String) (srcs : List SourceOutcome)
    (s : StoreState) (acc : List String) :
    (discoverUrls dom srcs (s, acc)).1.imports = s.imports := by
  induction srcs generalizing s acc with
  | nil => rfl
  | cons src rest ih =>
      cases src with
      | ok urls =>
          simp only [discoverUrls]
          rw [ih, foldl_markUrlSeen_imports]
      | disabled => exact ih s acc
      | unknownType => exact ih s acc
      | raises m => exact ih s acc

theorem discoverUrls_attempts (dom : String → String) (srcs : List SourceOutcome)
    (s : StoreState) (acc : List String) :
    (discoverUrls dom srcs (s, acc)).1.attempts = s.attempts := by
  induction srcs generalizing s acc with
  | nil => rfl
  | cons src rest ih =>
      cases src with
      | ok urls =>
          simp only [discoverUrls]
          rw [ih, foldl_markUrlSeen_attempts]
      | disabled => exact ih s acc
      | unknownType => exact ih s acc
      | raises m => exact ih s acc

theorem discoverUrls_completedRuns (dom : String → String)
    (srcs : List SourceOutcome) (s : StoreState) (acc : List String) :
    (discoverUrls dom srcs (s, acc)).1.completedRuns = s.completedRuns := by
  induction srcs generalizing s acc with
  | nil => rfl
  | cons src rest ih =>
      cases src with
      | ok urls =>
          simp only [discoverUrls]
          rw [ih, foldl_markUrlSeen_completedRuns]
      | disabled => exact ih s acc
      | unknownType => exact ih s acc
      | raises m => exact ih s acc

/-! ## Lemmas about the import loop -/

theorem importLoop_completedRuns (resp : String → HttpOutcome) (dry : Bool)
    (l : List String) (acc : StoreState × Nat × Nat × List String) :
    (importLoop resp dry l acc).1.completedRuns = acc.1.completedRuns := by
  induction l generalizing acc with
  | nil => rfl
  | cons url rest ih =>
      simp only [importLoop]
      cases h : (importRecipeFromUrl dry url (resp url)).1 with
      | some recipe => exact ih _
      | none => exact ih _

theorem importRecipeFromUrl_net (resp : HttpOutcome) (url : String) :
    (importRecipeFromUrl false url resp).2 = true := by
  unfold importRecipeFromUrl
  cases resp with
  | success n => rfl
  | httpError st =>
      simp only [Bool.false_eq_true, if_false]
      split <;> rfl
  | timeout => rfl
  | connectionError => rfl
  | otherError => rfl

theorem importLoop_calls (resp : String → HttpOutcome) (l : List String)
    (acc : StoreState × Nat × Nat × List String) :
    (importLoop resp false l acc).2.2.2 = acc.2.2.2 ++ l := by
  induction l generalizing acc with
  | nil => simp [importLoop]
  | cons url rest ih =>
      simp only [importLoop]
      cases h : (importRecipeFromUrl false url (resp url)).1 with
      | some recipe =>
          exact (ih _).trans (by simp [importRecipeFromUrl_net])
      | none =>
          exact (ih _).trans (by simp [importRecipeFromUrl_net])

theorem importLoop_imports_extra (resp : String → HttpOutcome) (dry : Bool)
    (l : List String) (acc : StoreState × Nat × Nat × List String) :
    ∃ extra, (importLoop resp dry l acc).1.imports = acc.1.imports ++ extra
      ∧ ∀ rec ∈ extra, rec.url ∈ l := by
  induction l generalizing acc with
  | nil => exact ⟨[], by simp [importLoop]⟩
  | cons url rest ih =>
      simp only [importLoop]
      cases h : (importRecipeFromUrl dry url (resp url)).1 with
      | some recipe =>
          obtain ⟨extra, he, hm⟩ := ih
            (recordAttempt (recordImport acc.1 url recipe.name none) url true none,
             acc.2.1 + 1, acc.2.2.1,
             if (importRecipeFromUrl dry url (resp url)).2 then acc.2.2.2 ++ [url] else acc.2.2.2)
          refine ⟨{ url := url, displayName := recipe.name, sourceName := none } :: extra, ?_, ?_⟩
          · exact he.trans (by simp [recordAttempt, recordImport])
          · intro rec hrec
            rcases List.mem_cons.mp hrec with h1 | h1
            · subst h1; exact List.mem_cons_self _ _
            · exact List.mem_cons_of_mem _ (hm rec h1)
      | none =>
          obtain ⟨extra, he, hm⟩ := ih
            (recordAttempt acc.1 url false (some "Import failed"),
             acc.2.1, acc.2.2.1 + 1,
             if (importRecipeFromUrl dry url (resp url)).2 then acc.2.2.2 ++ [url] else acc.2.2.2)
          refine ⟨extra, ?_, fun rec hrec => List.mem_cons_of_mem _ (hm rec hrec)⟩
          exact he.trans (by simp [recordAttempt])

theorem importLoop_attempts_extra (resp : String → HttpOutcome) (dry : Bool)
    (l : List String) (acc : StoreState × Nat × Nat × List String) :
    ∃ extra, (importLoop resp dry l acc).1.attempts = acc.1.attempts ++ extra := by
  induction l generalizing acc with
  | nil => exact ⟨[], by simp [importLoop]⟩
  | cons url rest ih =>
      simp only [importLoop]
      cases h : (importRecipeFromUrl dry url (resp url)).1 with
      | some recipe =>
          obtain ⟨extra, he⟩ := ih
            (recordAttempt (recordImport acc.1 url recipe.name none) url true none,
             acc.2.1 + 1, acc.2.2.1,
             if (importRecipeFromUrl dry url (resp url)).2 then acc.2.2.2 ++ [url] else acc.2.2.2)
          refine ⟨{ url := url, success := true, errorMessage := none } :: extra, ?_⟩
          exact he.trans (by simp [recordAttempt, recordImport])
      | none =>
          obtain ⟨extra, he⟩ := ih
            (recordAttempt acc.1 url false (some "Import failed"),
             acc.2.1, acc.2.2.1 + 1,
             if (importRecipeFromUrl dry url (resp url)).2 then acc.2.2.2 ++ [url] else acc.2.2.2)
          refine ⟨{ url := url, success := false, errorMessage := some "Import failed" } :: extra, ?_⟩
          exact he.trans (by simp [recordAttempt])

theorem importLoop_conflict (resp : String → HttpOutcome) (l : List String)
    (acc : StoreState × Nat × Nat × List String) (u : String)
    (h409 : resp u = HttpOutcome.httpError 409) (hmem : u ∈ l) :
    ({ url := u, displayName := "Existing Recipe", sourceName := none } : ImportRecord)
        ∈ (importLoop resp false l acc).1.imports
    ∧ ({ url := u, success := true, errorMessage := none } : AttemptRecord)
        ∈ (importLoop resp false l acc).1.attempts := by
  induction l generalizing acc with
  | nil => cases hmem
  | cons url rest ih =>
      rcases List.mem_cons.mp hmem with heq | htail
      · subst heq
        have hr : importRecipeFromUrl false u (resp u)
            = (some (Recipe.mk "Existing Recipe" u false true), true) := by
          rw [h409]
          rfl
        have hstep : importLoop resp false (u :: rest) acc
            = importLoop resp false rest
                (recordAttempt (recordImport acc.1 u "Existing Recipe" none) u true none,
                 acc.2.1 + 1, acc.2.2.1, acc.2.2.2 ++ [u]) := by
          simp [importLoop, hr]
        constructor
        · obtain ⟨extra, he, _⟩ := importLoop_imports_extra resp false rest
            (recordAttempt (recordImport acc.1 u "Existing Recipe" none) u true none,
             acc.2.1 + 1, acc.2.2.1, acc.2.2.2 ++ [u])
          rw [hstep, he]
          exact List.mem_append_left _ (by simp [recordAttempt, recordImport])
        · obtain ⟨extra, he⟩ := importLoop_attempts_extra resp false rest
            (recordAttempt (recordImport acc.1 u "Existing Recipe" none) u true none,
             acc.2.1 + 1, acc.2.2.1, acc.2.2.2 ++ [u])
          rw [hstep, he]
          exact List.mem_append_left _ (by simp [recordAttempt, recordImport])
      · simp only [importLoop]
        cases h : (importRecipeFromUrl false url (resp url)).1 with
        | some recipe => exact ih _ htail
        | none => exact ih _ htail

/-! ## Path lemmas for the sync cycle -/

theorem completeSyncRun_imports (s : StoreState) (a b c d : Nat)
    (r : Option String) : (completeSyncRun s a b c d r).imports = s.imports := rfl

theorem completeSyncRun_attempts (s : StoreState) (a b c d : Nat)
    (r : Option String) : (completeSyncRun s a b c d r).attempts = s.attempts := rfl

theorem completeSyncRun_seen (s : StoreState) (a b c d : Nat)
    (r : Option String) : (completeSyncRun s a b c d r).seen = s.seen := rfl

theorem startSyncRun_imports (s : StoreState) :
    (startSyncRun s).2.imports = s.imports := rfl

theorem sync_newUrls_eq (dom : String → String) (o : SyncOracle) (s : StoreState) :
    (dedupKeepFirst (discoverUrls dom o.sources ((startSyncRun s).2, [])).2).filter
        (fun u => decide (u ∉ getImportedUrls (discoverUrls dom o.sources ((startSyncRun s).2, [])).1))
      = syncCandidates o s := by
  rw [syncCandidates, discoveredOf]
  rw [discoverUrls_snd, List.nil_append]
  congr 1
  funext u
  congr 1
  rw [getImportedUrls, getImportedUrls, discoverUrls_imports, startSyncRun_imports]

theorem sync_eq_abort (cfg : SyncConfig) (dom : String → String) (o : SyncOracle)
    (s : StoreState) (hconn : o.connOk = false) :
    sync cfg dom o s =
      { state := completeSyncRun (startSyncRun s).2 (startSyncRun s).1 0 0 0
          (some "Failed to connect to Mealie")
        networkCalls := []
        runId := (startSyncRun s).1 } := by
  rw [sync]
  simp [hconn]

theorem sync_eq_dry (cfg : SyncConfig) (dom : String → String) (o : SyncOracle)
    (s : StoreState) (hconn : o.connOk = true) (hdry : cfg.dryRun = true) :
    sync cfg dom o s =
      { state := completeSyncRun (discoverUrls dom o.sources ((startSyncRun s).2, [])).1
          (startSyncRun s).1 (discoveredOf o).length 0 0 none
        networkCalls := []
        runId := (startSyncRun s).1 } := by
  rw [sync]
  simp only [hconn, Bool.true_eq_false, if_false, hdry, if_true]
  have hlen : (discoverUrls dom o.sources ((startSyncRun s).2, [])).2.length
      = (discoveredOf o).length := by
    rw [discoverUrls_snd, List.nil_append, discoveredOf]
  split
  · rw [hlen]
  · rw [hlen]

theorem sync_eq_main (cfg : SyncConfig) (dom : String → String) (o : SyncOracle)
    (s : StoreState) (hconn : o.connOk = true) (hdry : cfg.dryRun = false) :
    sync cfg dom o s =
      { state := completeSyncRun
          (importLoop o.resp false ((syncCandidates o s).take cfg.maxPerRun)
            ((discoverUrls dom o.sources ((startSyncRun s).2, [])).1, 0, 0, [])).1
          (startSyncRun s).1 (discoveredOf o).length
          (importLoop o.resp false ((syncCandidates o s).take cfg.maxPerRun)
            ((discoverUrls dom o.sources ((startSyncRun s).2, [])).1, 0, 0, [])).2.1
          (importLoop o.resp false ((syncCandidates o s).take cfg.maxPerRun)
            ((discoverUrls dom o.sources ((startSyncRun s).2, [])).1, 0, 0, [])).2.2.1
          none
        networkCalls := (importLoop o.resp false ((syncCandidates o s).take cfg.maxPerRun)
            ((discoverUrls dom o.sources ((startSyncRun s).2, [])).1, 0, 0, [])).2.2.2
        runId := (startSyncRun s).1 } := by
  rw [sync]
  simp only [hconn, Bool.true_eq_false, if_false, hdry]
  have hlen : (discoverUrls dom o.sources ((startSyncRun s).2, [])).2.length
      = (discoveredOf o).length := by
    rw [discoverUrls_snd, List.nil_append, discoveredOf]
  rw [sync_newUrls_eq]
  split
  · rename_i hempty
    have hc : syncCandidates o s = [] := List.isEmpty_iff.mp hempty
    rw [hc]
    simp only [List.take_nil, importLoop]
    rw [hlen]
  · rw [hlen]
    simp only [Bool.false_eq_true, if_false]

/-! ## Derived lemmas about a sync cycle -/

theorem mem_syncCandidates (o : SyncOracle) (s : StoreState) (u : String) :
    u ∈ syncCandidates o s ↔ u ∈ discoveredOf o ∧ u ∉ getImportedUrls s := by
  rw [syncCandidates, List.mem_filter, mem_dedupKeepFirst]
  simp

theorem not_syncCandidates_of_imported (o : SyncOracle) (s : StoreState)
    (u : String) (h : u ∈ getImportedUrls s) : u ∉ syncCandidates o s := by
  intro hc
  exact ((mem_syncCandidates o s u).mp hc).2 h

theorem sync_runId_eq (cfg : SyncConfig) (dom : String → String) (o : SyncOracle)
    (s : StoreState) : (sync cfg dom o s).runId = (startSyncRun s).1 := by
  by_cases hconn : o.connOk = true
  · by_cases hdry : cfg.dryRun = true
    · rw [sync_eq_dry cfg dom o s hconn hdry]
    · rw [sync_eq_main cfg dom o s hconn (Bool.not_eq_true _ |>.mp hdry)]
  · rw [sync_eq_abort cfg dom o s (Bool.not_eq_true _ |>.mp hconn)]

theorem sync_imports_extra (cfg : SyncConfig) (dom : String → String)
    (o : SyncOracle) (s : StoreState) :
    ∃ extra, (sync cfg dom o s).state.imports = s.imports ++ extra
      ∧ ∀ rec ∈ extra, rec.url ∈ (syncCandidates o s).take cfg.maxPerRun := by
  by_cases hconn : o.connOk = true
  · by_cases hdry : cfg.dryRun = true
    · refine ⟨[], ?_, by simp⟩
      rw [sync_eq_dry cfg dom o s hconn hdry]
      simp only [completeSyncRun_imports]
      rw [discoverUrls_imports, startSyncRun_imports, List.append_nil]
    · rw [sync_eq_main cfg dom o s hconn (Bool.not_eq_true _ |>.mp hdry)]
      obtain ⟨extra, he, hm⟩ := importLoop_imports_extra o.resp false
        ((syncCandidates o s).take cfg.maxPerRun)
        ((discoverUrls dom o.sources ((startSyncRun s).2, [])).1, 0, 0, [])
      refine ⟨extra, ?_, hm⟩
      simp only [completeSyncRun_imports]
      rw [he, discoverUrls_imports, startSyncRun_imports]
  · refine ⟨[], ?_, by simp⟩
    rw [sync_eq_abort cfg dom o s (Bool.not_eq_true _ |>.mp hconn)]
    simp only [completeSyncRun_imports]
    rw [startSyncRun_imports, List.append_nil]

theorem sync_imported_mono (cfg : SyncConfig) (dom : String → String)
    (o : SyncOracle) (s : StoreState) (u : String)
    (h : u ∈ getImportedUrls s) :
    u ∈ getImportedUrls (sync cfg dom o s).state := by
  obtain ⟨extra, he, _⟩ := sync_imports_extra cfg dom o s
  rw [getImportedUrls] at h ⊢
  rw [he, List.map_append]
  exact List.mem_append_left _ h

theorem runMany_imported_mono (cfg : SyncConfig) (dom : String → String)
    (os : List SyncOracle) (s : StoreState) (u : String)
    (h : u ∈ getImportedUrls s) :
    u ∈ getImportedUrls (runMany cfg dom os s) := by
  induction os generalizing s with
  | nil => exact h
  | cons o os ih => exact ih _ (sync_imported_mono cfg dom o s u h)

theorem sync_calls_eq (cfg : SyncConfig) (dom : String → String) (o : SyncOracle)
    (s : StoreState) :
    (sync cfg dom o s).networkCalls =
      if o.connOk && !cfg.dryRun then (syncCandidates o s).take cfg.maxPerRun
      else [] := by
  by_cases hconn : o.connOk = true
  · by_cases hdry : cfg.dryRun = true
    · rw [sync_eq_dry cfg dom o s hconn hdry]
      simp [hconn, hdry]
    · have hdry' := Bool.not_eq_true _ |>.mp hdry
      rw [sync_eq_main cfg dom o s hconn hdry']
      rw [importLoop_calls]
      simp [hconn, hdry']
  · have hconn' := Bool.not_eq_true _ |>.mp hconn
    rw [sync_eq_abort cfg dom o s hconn']
    simp [hconn']

theorem sync_completed (cfg : SyncConfig) (dom : String → String) (o : SyncOracle)
    (s : StoreState) :
    ∃ rec : SyncRunRecord,
      (sync cfg dom o s).state.completedRuns = s.completedRuns ++ [rec]
      ∧ rec.runId = (sync cfg dom o s).runId
      ∧ rec.discovered = (if o.connOk then (discoveredOf o).length else 0)
      ∧ ((cfg.dryRun = true ∨ o.connOk = false) → rec.imported = 0 ∧ rec.failed = 0) := by
  rw [sync_runId_eq]
  by_cases hconn : o.connOk = true
  · by_cases hdry : cfg.dryRun = true
    · rw [sync_eq_dry cfg dom o s hconn hdry]
      refine ⟨⟨(startSyncRun s).1, (discoveredOf o).length, 0, 0, none⟩,
        ?_, rfl, by simp [hconn], fun _ => ⟨rfl, rfl⟩⟩
      show (completeSyncRun _ _ _ _ _ _).completedRuns = _
      rw [completeSyncRun]
      rw [discoverUrls_completedRuns]
      rfl
    · have hdry' := Bool.not_eq_true _ |>.mp hdry
      rw [sync_eq_main cfg dom o s hconn hdry']
      refine ⟨⟨(startSyncRun s).1, (discoveredOf o).length,
          (importLoop o.resp false ((syncCandidates o s).take cfg.maxPerRun)
            ((discoverUrls dom o.sources ((startSyncRun s).2, [])).1, 0, 0, [])).2.1,
          (importLoop o.resp false ((syncCandidates o s).take cfg.maxPerRun)
            ((discoverUrls dom o.sources ((startSyncRun s).2, [])).1, 0, 0, [])).2.2.1,
          none⟩,
        ?_, rfl, by simp [hconn], fun hcase => ?_⟩
      · show (completeSyncRun _ _ _ _ _ _).completedRuns = _
        rw [completeSyncRun]
        rw [importLoop_completedRuns, discoverUrls_completedRuns]
        rfl
      · rcases hcase with h | h
        · rw [hdry'] at h; cases h
        · rw [hconn] at h; cases h
  · have hconn' := Bool.not_eq_true _ |>.mp hconn
    rw [sync_eq_abort cfg dom o s hconn']
    refine ⟨⟨(startSyncRun s).1, 0, 0, 0, some "Failed to connect to Mealie"⟩,
      ?_, rfl, by simp [hconn'], fun _ => ⟨rfl, rfl⟩⟩
    show (completeSyncRun _ _ _ _ _ _).completedRuns = _
    rw [completeSyncRun]
    rfl

/-! ## Lemmas about the feed-or-crawl candidate loop -/

theorem tryRss_map_fst (env : SourceEnv) (ad : List String) (me : Nat)
    (cands : List String) :
    (tryRssCandidates env ad me cands).map Prod.fst
      = firstUsableCandidate env ad me cands := by
  induction cands with
  | nil => rfl
  | cons c rest ih =>
      cases hp : env.parseFeed c with
      | error e =>
          simp only [tryRssCandidates, firstUsableCandidate, hp]
          exact ih
      | ok feed =>
          simp only [tryRssCandidates, firstUsableCandidate, hp]
          by_cases hb : (!feed.bozo && !feed.entries.isEmpty) = true
          · by_cases hu : (!(extractFeedUrls env ad me feed).isEmpty) = true
            · rw [if_pos hb, if_pos hu, if_pos (by simp_all)]
              rfl
            · rw [if_pos hb, if_neg hu, if_neg (by simp_all)]
              exact ih
          · rw [if_neg hb, if_neg (by simp_all)]
            exact ih

theorem tryRss_some_spec (env : SourceEnv) (ad : List String) (me : Nat)
    (cands : List String) (r : String × List String)
    (h : tryRssCandidates env ad me cands = some r) :
    ∃ feed, env.parseFeed r.1 = .ok feed
      ∧ r.2 = extractFeedUrls env ad me feed := by
  induction cands with
  | nil => cases h
  | cons c rest ih =>
      cases hp : env.parseFeed c with
      | error e =>
          simp only [tryRssCandidates, hp] at h
          exact ih h
      | ok feed =>
          simp only [tryRssCandidates, hp] at h
          by_cases hb : (!feed.bozo && !feed.entries.isEmpty) = true
          · rw [if_pos hb] at h
            by_cases hu : (!(extractFeedUrls env ad me feed).isEmpty) = true
            · rw [if_pos hu] at h
              obtain rfl := (Option.some_inj.mp h).symm
              exact ⟨feed, hp, rfl⟩
            · rw [if_neg hu] at h
              exact ih h
          · rw [if_neg hb] at h
            exact ih h

theorem rssOrCrawl_eq_spec (env : SourceEnv) (cfg : RSSOrCrawlConfig) :
    rssOrCrawlGetUrls env cfg = rssOrCrawlSpec env cfg := by
  cases htry : tryRssCandidates env cfg.allowDomains cfg.maxEntries cfg.rssCandidates with
  | some r =>
      obtain ⟨feed, hp, hu⟩ := tryRss_some_spec env _ _ _ r htry
      have hfirst : firstUsableCandidate env cfg.allowDomains cfg.maxEntries
          cfg.rssCandidates = some r.1 := by
        rw [← tryRss_map_fst, htry]
        rfl
      rw [rssOrCrawlGetUrls, htry, rssOrCrawlSpec, hfirst]
      simp only [hp]
      rw [hu]
  | none =>
      have hfirst : firstUsableCandidate env cfg.allowDomains cfg.maxEntries
          cfg.rssCandidates = none := by
        rw [← tryRss_map_fst, htry]
        rfl
      rw [rssOrCrawlGetUrls, htry, rssOrCrawlSpec, hfirst]

/-! ## Variant-level totality lemmas -/

theorem rssFeed_never_raises (env : SourceEnv) (cfg : RSSFeedConfig) :
    ∃ l, rssFeedGetUrls env cfg = .ok l := by
  cases hr : cfg.rssUrl with
  | none => exact ⟨[], by simp only [rssFeedGetUrls, hr]⟩
  | some r =>
      cases hp : env.parseFeed r with
      | ok feed =>
          exact ⟨extractFeedUrls env cfg.allowDomains cfg.maxEntries feed,
            by simp only [rssFeedGetUrls, hr, hp]⟩
      | error e => exact ⟨[], by simp only [rssFeedGetUrls, hr, hp]⟩

theorem rssSuffix_never_raises (env : SourceEnv) (cfg : RSSSuffixConfig) :
    ∃ l, rssSuffixGetUrls env cfg = .ok l := by
  cases hr : cfg.indexUrl with
  | none => exact ⟨[], by simp only [rssSuffixGetUrls, hr]⟩
  | some r =>
      cases hp : env.parseFeed (rstripSlash r ++ cfg.rssSuffix) with
      | ok feed =>
          exact ⟨extractFeedUrls env cfg.allowDomains cfg.maxEntries feed,
            by simp only [rssSuffixGetUrls, hr, hp]⟩
      | error e => exact ⟨[], by simp only [rssSuffixGetUrls, hr, hp]⟩

theorem crawlIndex_never_raises (env : SourceEnv) (cfg : CrawlIndexConfig) :
    ∃ l, crawlIndexGetUrls env cfg = .ok l := by
  cases hr : cfg.indexUrl with
  | none => exact ⟨[], by simp only [crawlIndexGetUrls, hr]⟩
  | some r =>
      by_cases he : cfg.allowDomains.isEmpty = true
      · exact ⟨[], by simp only [crawlIndexGetUrls, hr, he, if_true]⟩
      · cases hc : env.crawlIndexPage r cfg.allowDomains cfg.maxPages with
        | ok urls =>
            refine ⟨urls, ?_⟩
            simp only [crawlIndexGetUrls, hr, hc]
            rw [if_neg he]
        | error e =>
            refine ⟨[], ?_⟩
            simp only [crawlIndexGetUrls, hr, hc]
            rw [if_neg he]

theorem rssOrCrawl_never_raises (env : SourceEnv) (cfg : RSSOrCrawlConfig) :
    ∃ l, rssOrCrawlGetUrls env cfg = .ok l := by
  cases ht : tryRssCandidates env cfg.allowDomains cfg.maxEntries cfg.rssCandidates with
  | some r => exact ⟨r.2, by simp only [rssOrCrawlGetUrls, ht]⟩
  | none =>
      cases hf : cfg.crawlFallback with
      | none => exact ⟨[], by simp only [rssOrCrawlGetUrls, ht, hf]⟩
      | some fb =>
          by_cases he : cfg.allowDomains.isEmpty = true
          · exact ⟨[], by simp only [rssOrCrawlGetUrls, ht, hf, he, if_true]⟩
          · cases hc : env.crawlIndexPage fb cfg.allowDomains cfg.maxPages with
            | ok urls =>
                refine ⟨urls, ?_⟩
                simp only [rssOrCrawlGetUrls, ht, hf, hc]
                rw [if_neg he]
            | error e =>
                refine ⟨[], ?_⟩
                simp only [rssOrCrawlGetUrls, ht, hf, hc]
                rw [if_neg he]

theorem urlList_never_raises (env : SourceEnv) (cfg : URLListConfig) :
    ∃ l, urlListGetUrls env cfg = .ok l :=
  ⟨_, rfl⟩

/-! ## Claim theorems -/

/-- C5 (amended): the Import Client's transport layer is configured with a
total retry budget of 3 and exponential backoff with factor 2, retrying
only on the transient statuses 429, 500, 502, 503 and 504 (the
rate-limited code and server-side 5xx codes), and only for the methods GET
and POST — and POST is not an idempotent-safe method, refuting the
claim's restriction to idempotent-safe methods. -/
theorem mealie_retry_policy_config :
    mealieRetryPolicy.total = 3
  ∧ mealieRetryPolicy.backoffFactor = 2
  ∧ mealieRetryPolicy.statusForcelist = [429, 500, 502, 503, 504]
  ∧ mealieRetryPolicy.allowedMethods = ["GET", "POST"]
  ∧ idempotentSafeMethod "GET" = true
  ∧ idempotentSafeMethod "POST" = false := by
  refine ⟨rfl, rfl, rfl, rfl, rfl, rfl⟩

/-- C5 counterexample: the retry configuration allows retries of POST,
which is not an idempotent-safe method, so retries are not limited to
idempotent-safe methods as the claim states. -/
theorem mealie_retry_allows_post :
    "POST" ∈ mealieRetryPolicy.allowedMethods
  ∧ idempotentSafeMethod "POST" = false := by
  refine ⟨?_, rfl⟩
  simp [mealieRetryPolicy]

/-- Demonstration environment for the feed-or-crawl selection rule: the
first candidate parses cleanly and has an entry, but its only link is
rejected by the domain filter; the second candidate yields a usable URL. -/
def envFeedDemo : SourceEnv :=
  { parseFeed := fun c =>
      if c == "feedA" then .ok { bozo := false, entries := ["http://x.example/a"] }
      else .ok { bozo := false, entries := ["http://good.example/b"] }
    crawlIndexPage := fun _ _ _ => .ok []
    matchesDomain := fun url allow => allow.any (fun d => url == "http://" ++ d ++ "/b")
    normalize := fun u => u }

/-- Demonstration configuration for the feed-or-crawl selection rule. -/
def cfgFeedDemo : RSSOrCrawlConfig :=
  { rssCandidates := ["feedA", "feedB"]
    crawlFallback := none
    maxEntries := 20
    maxPages := 100
    allowDomains := ["good.example"] }

/-- C6 counterexample: the first candidate that parses without the
malformed flag and yields entries is feedA, yet the code accepts feedB,
because feedA's entries produce no URLs after domain filtering; so the
accepted candidate is not the first well-formed one with entries. -/
theorem rss_or_crawl_entries_rule_refuted :
    firstWellFormedCandidate envFeedDemo ["feedA", "feedB"] = some "feedA"
  ∧ (tryRssCandidates envFeedDemo ["good.example"] 20 ["feedA", "feedB"]).map Prod.fst
      = some "feedB"
  ∧ (tryRssCandidates envFeedDemo ["good.example"] 20 ["feedA", "feedB"]).map Prod.fst
      ≠ firstWellFormedCandidate envFeedDemo ["feedA", "feedB"]
  ∧ rssOrCrawlGetUrls envFeedDemo cfgFeedDemo = .ok ["http://good.example/b"] := by
  refine ⟨by decide, by decide, by decide, by rfl⟩

/-- C6 (amended): for the feed-or-crawl variant the candidates are tried
in order and the accepted candidate is the first one that parses without
the malformed-content flag, yields entries, and yields at least one URL
after link extraction and domain filtering; a failing candidate is
skipped, and only when no candidate is usable is the fallback branch
(crawling the fallback index URL) taken — stated as equality with the
amended selection rule rssOrCrawlSpec. -/
theorem rss_or_crawl_selection (env : SourceEnv) (cfg : RSSOrCrawlConfig) :
    rssOrCrawlGetUrls env cfg = rssOrCrawlSpec env cfg
  ∧ (tryRssCandidates env cfg.allowDomains cfg.maxEntries cfg.rssCandidates).map Prod.fst
      = firstUsableCandidate env cfg.allowDomains cfg.maxEntries cfg.rssCandidates :=
  ⟨rssOrCrawl_eq_spec env cfg, tryRss_map_fst env cfg.allowDomains cfg.maxEntries cfg.rssCandidates⟩

/-- C8: no source variant ever raises to its caller — for every
environment (feed parser, crawler, normalizer oracles) and every
configuration, each variant's get_recipe_urls returns a URL list (ok)
and never propagates an error. -/
theorem sources_never_raise (env : SourceEnv) (cfgA : RSSFeedConfig)
    (cfgB : RSSSuffixConfig) (cfgC : CrawlIndexConfig) (cfgD : RSSOrCrawlConfig)
    (cfgE : URLListConfig) :
    (∃ l, rssFeedGetUrls env cfgA = .ok l)
  ∧ (∃ l, rssSuffixGetUrls env cfgB = .ok l)
  ∧ (∃ l, crawlIndexGetUrls env cfgC = .ok l)
  ∧ (∃ l, rssOrCrawlGetUrls env cfgD = .ok l)
  ∧ (∃ l, urlListGetUrls env cfgE = .ok l) :=
  ⟨rssFeed_never_raises env cfgA, rssSuffix_never_raises env cfgB,
   crawlIndex_never_raises env cfgC, rssOrCrawl_never_raises env cfgD,
   urlList_never_raises env cfgE⟩

theorem filter_self_idem {α : Type} (p : α → Bool) (l : List α) :
    (l.filter p).filter p = l.filter p := by
  rw [List.filter_filter]
  simp

/-- C9: URL normalization is idempotent — normalizing an already
normalized URL yields the same value (the normalizer is modelled from the
spec, crawler.py not being among the provided sources). -/
theorem normalize_idempotent (u : ParsedUrl) :
    normalize (normalize u) = normalize u := by
  simp only [normalize]
  congr 1
  · exact lowerString_idem u.host
  · exact filter_self_idem _ u.query

theorem completeSyncRun_completedRuns (s : StoreState) (a b c d : Nat)
    (r : Option String) :
    (completeSyncRun s a b c d r).completedRuns
      = s.completedRuns ++ [⟨a, b, c, d, r⟩] := rfl

theorem startSyncRun_attempts (s : StoreState) :
    (startSyncRun s).2.attempts = s.attempts := rfl

theorem startSyncRun_seen (s : StoreState) :
    (startSyncRun s).2.seen = s.seen := rfl

theorem startSyncRun_completedRuns (s : StoreState) :
    (startSyncRun s).2.completedRuns = s.completedRuns := rfl

/-- C1: in every run the candidate list is exactly the deduplicated
discovery list minus the URLs that have an ImportRecord; a URL with an
ImportRecord is never a candidate again after any number of further runs
(regardless of rediscovery); and attempt records (in particular failed
ones) have no influence on the candidate list, so a URL whose only
history is failed attempts stays eligible. -/
theorem sync_import_gate (cfg : SyncConfig) (dom : String → String)
    (o : SyncOracle) (s : StoreState) (u : String) (os : List SyncOracle)
    (extraAttempts : List AttemptRecord) :
    (u ∈ syncCandidates o s ↔ u ∈ discoveredOf o ∧ u ∉ getImportedUrls s)
  ∧ (u ∉ getImportedUrls s ∨ u ∉ syncCandidates o (runMany cfg dom os s))
  ∧ syncCandidates o { s with attempts := extraAttempts } = syncCandidates o s := by
  refine ⟨mem_syncCandidates o s u, ?_, rfl⟩
  by_cases h : u ∈ getImportedUrls s
  · exact Or.inr
      (not_syncCandidates_of_imported o _ u (runMany_imported_mono cfg dom os s u h))
  · exact Or.inl h

/-- C2: the combined discovery list is the returning sources' lists
concatenated in configuration order; deduplication keeps the first
occurrence of each URL preserving order (nodup, sublist, same membership,
and the keep-first recursion); when the run proceeds (connectivity up,
not dry-run), exactly the first per-run-cap elements of the filtered
candidate list are attempted, in order; an unattempted candidate is still
unimported after the run, hence eligible next run; and concretely, with
five new URLs and a cap of two, exactly the first two are attempted and
nothing gets imported when the import calls fail. -/
theorem sync_dedupe_order_cap (cfg : SyncConfig) (dom : String → String)
    (o : SyncOracle) (s : StoreState) (l : List String) (a u : String) :
    (discoverUrls dom o.sources (s, [])).2 = discoveredOf o
  ∧ (dedupKeepFirst l).Nodup
  ∧ (dedupKeepFirst l).Sublist l
  ∧ (a ∈ dedupKeepFirst l ↔ a ∈ l)
  ∧ dedupKeepFirst (a :: l) = a :: dedupKeepFirst (l.filter (fun b => !(b == a)))
  ∧ (sync cfg dom o s).networkCalls
      = (if o.connOk && !cfg.dryRun then (syncCandidates o s).take cfg.maxPerRun else [])
  ∧ (u ∉ syncCandidates o s ∨ u ∈ (syncCandidates o s).take cfg.maxPerRun
      ∨ u ∉ getImportedUrls (sync cfg dom o s).state)
  ∧ (sync ⟨2, false⟩ (fun _ => "d")
      ⟨true, [SourceOutcome.ok ["u1", "u2", "u3", "u4", "u5"]], fun _ => HttpOutcome.timeout⟩
      emptyStore).networkCalls = ["u1", "u2"]
  ∧ getImportedUrls (sync ⟨2, false⟩ (fun _ => "d")
      ⟨true, [SourceOutcome.ok ["u1", "u2", "u3", "u4", "u5"]], fun _ => HttpOutcome.timeout⟩
      emptyStore).state = [] := by
  refine ⟨?_, nodup_dedupKeepFirst l, sublist_dedupKeepFirst l,
    mem_dedupKeepFirst l a, dedupKeepFirst_cons a l, sync_calls_eq cfg dom o s,
    ?_, by decide, by decide⟩
  · rw [discoveredOf]
    simpa using discoverUrls_snd dom o.sources s []
  · by_cases h1 : u ∈ syncCandidates o s
    · by_cases h2 : u ∈ (syncCandidates o s).take cfg.maxPerRun
      · exact Or.inr (Or.inl h2)
      · refine Or.inr (Or.inr ?_)
        intro himp
        obtain ⟨extra, he, hm⟩ := sync_imports_extra cfg dom o s
        rw [getImportedUrls, he, List.map_append] at himp
        rcases List.mem_append.mp himp with h3 | h3
        · exact ((mem_syncCandidates o s u).mp h1).2 h3
        · obtain ⟨rec, hrec, hurl⟩ := List.mem_map.mp h3
          exact h2 (hurl ▸ hm rec hrec)
    · exact Or.inl h1

/-- The oracle of the conflict demonstration: one source returning one
URL whose import POST is answered 409. -/
def conflictOracle : SyncOracle :=
  { connOk := true
    sources := [SourceOutcome.ok ["a"]]
    resp := fun _ => HttpOutcome.httpError 409 }

/-- C3: an import call answered with a 409 conflict returns a minimal
success record rather than a failure; the orchestrator then persists an
ImportRecord and a success AttemptRecord for the URL, the URL is in the
imported set after the run, and it is not a candidate in any future run. -/
theorem sync_conflict_success (cfg : SyncConfig) (dom : String → String)
    (o : SyncOracle) (s : StoreState) (u : String) (os : List SyncOracle)
    (o' : SyncOracle)
    (hconn : o.connOk = true) (hdry : cfg.dryRun = false)
    (h409 : o.resp u = HttpOutcome.httpError 409)
    (hmem : u ∈ (syncCandidates o s).take cfg.maxPerRun) :
    importRecipeFromUrl false u (HttpOutcome.httpError 409)
        = (some (Recipe.mk "Existing Recipe" u false true), true)
  ∧ ({ url := u, displayName := "Existing Recipe", sourceName := none } : ImportRecord)
        ∈ (sync cfg dom o s).state.imports
  ∧ ({ url := u, success := true, errorMessage := none } : AttemptRecord)
        ∈ (sync cfg dom o s).state.attempts
  ∧ u ∈ getImportedUrls (sync cfg dom o s).state
  ∧ u ∉ syncCandidates o' (runMany cfg dom os (sync cfg dom o s).state) := by
  have hloop := importLoop_conflict o.resp ((syncCandidates o s).take cfg.maxPerRun)
    ((discoverUrls dom o.sources ((startSyncRun s).2, [])).1, 0, 0, []) u h409 hmem
  have hstate : (sync cfg dom o s).state.imports
      = (importLoop o.resp false ((syncCandidates o s).take cfg.maxPerRun)
          ((discoverUrls dom o.sources ((startSyncRun s).2, [])).1, 0, 0, [])).1.imports := by
    rw [sync_eq_main cfg dom o s hconn hdry]
    exact completeSyncRun_imports _ _ _ _ _ _
  have hatt : (sync cfg dom o s).state.attempts
      = (importLoop o.resp false ((syncCandidates o s).take cfg.maxPerRun)
          ((discoverUrls dom o.sources ((startSyncRun s).2, [])).1, 0, 0, [])).1.attempts := by
    rw [sync_eq_main cfg dom o s hconn hdry]
    exact completeSyncRun_attempts _ _ _ _ _ _
  have himp : ({ url := u, displayName := "Existing Recipe", sourceName := none } : ImportRecord)
      ∈ (sync cfg dom o s).state.imports := by
    rw [hstate]
    exact hloop.1
  have himported : u ∈ getImportedUrls (sync cfg dom o s).state := by
    rw [getImportedUrls]
    exact List.mem_map.mpr ⟨_, himp, rfl⟩
  refine ⟨by rw [h409] at h409 ⊢; rfl, himp, ?_, himported, ?_⟩
  · rw [hatt]
    exact hloop.2
  · exact not_syncCandidates_of_imported o' _ u
      (runMany_imported_mono cfg dom os _ u himported)

/-- C3 witness: the conflict scenario at a concrete input — one fresh
URL "a", a 409 response, cap 5 — discharging every hypothesis. -/
theorem sync_conflict_success_witness :
    importRecipeFromUrl false "a" (HttpOutcome.httpError 409)
        = (some (Recipe.mk "Existing Recipe" "a" false true), true)
  ∧ ({ url := "a", displayName := "Existing Recipe", sourceName := none } : ImportRecord)
        ∈ (sync ⟨5, false⟩ (fun _ => "d") conflictOracle emptyStore).state.imports
  ∧ ({ url := "a", success := true, errorMessage := none } : AttemptRecord)
        ∈ (sync ⟨5, false⟩ (fun _ => "d") conflictOracle emptyStore).state.attempts
  ∧ "a" ∈ getImportedUrls (sync ⟨5, false⟩ (fun _ => "d") conflictOracle emptyStore).state
  ∧ "a" ∉ syncCandidates conflictOracle
      (runMany ⟨5, false⟩ (fun _ => "d") []
        (sync ⟨5, false⟩ (fun _ => "d") conflictOracle emptyStore).state) :=
  sync_conflict_success ⟨5, false⟩ (fun _ => "d") conflictOracle emptyStore "a" []
    conflictOracle rfl rfl rfl (by decide)

/-- C4: in dry-run mode no import network call is made, no ImportRecord
and no AttemptRecord is written, the run is finalized exactly once with
the discovered count (zero on the aborted-connectivity path, where no
discovery happens) and zero imported and failed counts, and the only
mutation of the persistent tables is the seen-marking done by the
discovery step. -/
theorem sync_dry_run_frame (cfg : SyncConfig) (dom : String → String)
    (o : SyncOracle) (s : StoreState) (hdry : cfg.dryRun = true) :
    (sync cfg dom o s).networkCalls = []
  ∧ (sync cfg dom o s).state.imports = s.imports
  ∧ (sync cfg dom o s).state.attempts = s.attempts
  ∧ (sync cfg dom o s).state.completedRuns.length = s.completedRuns.length + 1
  ∧ ((sync cfg dom o s).state.completedRuns.getLast?).map (fun r => (r.imported, r.failed))
      = some (0, 0)
  ∧ ((sync cfg dom o s).state.completedRuns.getLast?).map (fun r => r.discovered)
      = some (if o.connOk then (discoveredOf o).length else 0)
  ∧ (sync cfg dom o s).state.seen
      = (if o.connOk then (discoverUrls dom o.sources ((startSyncRun s).2, [])).1.seen
         else s.seen) := by
  by_cases hconn : o.connOk = true
  · rw [sync_eq_dry cfg dom o s hconn hdry]
    refine ⟨rfl, ?_, ?_, ?_, ?_, ?_, ?_⟩
    · rw [completeSyncRun_imports, discoverUrls_imports, startSyncRun_imports]
    · rw [completeSyncRun_attempts, discoverUrls_attempts, startSyncRun_attempts]
    · rw [completeSyncRun_completedRuns, discoverUrls_completedRuns,
        startSyncRun_completedRuns]
      simp
    · rw [completeSyncRun_completedRuns, List.getLast?_concat]
      rfl
    · rw [completeSyncRun_completedRuns, List.getLast?_concat]
      simp [hconn]
    · rw [completeSyncRun_seen]
      simp [hconn]
  · have hconn' := Bool.not_eq_true _ |>.mp hconn
    rw [sync_eq_abort cfg dom o s hconn']
    refine ⟨rfl, rfl, rfl, ?_, ?_, ?_, ?_⟩
    · rw [completeSyncRun_completedRuns, startSyncRun_completedRuns]
      simp
    · rw [completeSyncRun_completedRuns, List.getLast?_concat]
      rfl
    · rw [completeSyncRun_completedRuns, List.getLast?_concat]
      simp [hconn']
    · rw [completeSyncRun_seen, startSyncRun_seen]
      simp [hconn']

/-- The oracle of the dry-run demonstration: connectivity up, one source
returning one URL, a would-succeed import response. -/
def dryRunOracle : SyncOracle :=
  { connOk := true
    sources := [SourceOutcome.ok ["x"]]
    resp := fun _ => HttpOutcome.success "n" }

/-- C4 witness: the dry-run frame at a concrete input. -/
theorem sync_dry_run_frame_witness :
    (sync ⟨3, true⟩ (fun _ => "d") dryRunOracle emptyStore).networkCalls = []
  ∧ (sync ⟨3, true⟩ (fun _ => "d") dryRunOracle emptyStore).state.imports = emptyStore.imports
  ∧ (sync ⟨3, true⟩ (fun _ => "d") dryRunOracle emptyStore).state.attempts = emptyStore.attempts
  ∧ (sync ⟨3, true⟩ (fun _ => "d") dryRunOracle emptyStore).state.completedRuns.length
      = emptyStore.completedRuns.length + 1
  ∧ ((sync ⟨3, true⟩ (fun _ => "d") dryRunOracle emptyStore).state.completedRuns.getLast?).map
      (fun r => (r.imported, r.failed)) = some (0, 0)
  ∧ ((sync ⟨3, true⟩ (fun _ => "d") dryRunOracle emptyStore).state.completedRuns.getLast?).map
      (fun r => r.discovered)
      = some (if dryRunOracle.connOk then (discoveredOf dryRunOracle).length else 0)
  ∧ (sync ⟨3, true⟩ (fun _ => "d") dryRunOracle emptyStore).state.seen
      = (if dryRunOracle.connOk then
          (discoverUrls (fun _ => "d") dryRunOracle.sources ((startSyncRun emptyStore).2, [])).1.seen
         else emptyStore.seen) :=
  sync_dry_run_frame ⟨3, true⟩ (fun _ => "d") dryRunOracle emptyStore rfl

/-- C7: every sync cycle finalizes the run it opened exactly once — on
the aborted, dry-run and import paths alike the completed-run table grows
by exactly one record, carrying the id the cycle opened; in particular
complete_sync_run is never invoked twice for the same run id within a
cycle. -/
theorem sync_finalizes_once (cfg : SyncConfig) (dom : String → String)
    (o : SyncOracle) (s : StoreState) :
    ∃ rec : SyncRunRecord,
      (sync cfg dom o s).state.completedRuns = s.completedRuns ++ [rec]
      ∧ rec.runId = (sync cfg dom o s).runId := by
  obtain ⟨rec, h1, h2, _⟩ := sync_completed cfg dom o s
  exact ⟨rec, h1, h2⟩

/-- C10: the discovered count recorded at finalization is the length of
the concatenation of the per-source URL lists before deduplication (zero
on the aborted path), so a URL discovered twice counts twice — as the
concrete two-source demonstration with the same URL from both sources
shows (discovered = 2, not 1). -/
theorem sync_discovered_total_count (cfg : SyncConfig) (dom : String → String)
    (o : SyncOracle) (s : StoreState) :
    (sync cfg dom o s).state.completedRuns.length = s.completedRuns.length + 1
  ∧ ((sync cfg dom o s).state.completedRuns.getLast?).map (fun r => r.discovered)
      = some (if o.connOk then (discoveredOf o).length else 0)
  ∧ ((sync ⟨10, false⟩ (fun _ => "d")
        ⟨true, [SourceOutcome.ok ["http://r.example/a"], SourceOutcome.ok ["http://r.example/a"]],
         fun _ => HttpOutcome.timeout⟩ emptyStore).state.completedRuns.getLast?).map
        (fun r => r.discovered) = some 2 := by
  obtain ⟨rec, h1, _, h3, _⟩ := sync_completed cfg dom o s
  refine ⟨?_, ?_, by decide⟩
  · rw [h1]
    simp
  · rw [h1, List.getLast?_concat]
    simp [h3]

end MealieSync
